import Mathlib

/-!
Verification development for the git-worktree-tui repository.

The Go sources are shallowly embedded here. Strings are modelled as lists
of characters (`Str`), external subprocesses (git, the editor) and the
rendering/input widgets (bubbles list / textinput, lipgloss styling) as
explicit parameters of the step functions, mirroring the repository's
treatment of them as external collaborators.
-/

namespace WtTui

/-- Go strings, modelled as character lists. -/
abbrev Str := List Char

/-- Coerce a Lean string literal to the character-list model. -/
def str (s : String) : Str := s.data

/-- `strings.HasPrefix s pre` (argument order: subject first). -/
def startsWithL : Str → Str → Bool
  | _, [] => true
  | [], _ :: _ => false
  | c :: s, p :: ps => c = p && startsWithL s ps

/-- `strings.HasSuffix s suf`. -/
def endsWithL (s suf : Str) : Bool := startsWithL s.reverse suf.reverse

/-- `strings.TrimPrefix s pre`. -/
def trimPre (s pre : Str) : Str :=
  if startsWithL s pre then s.drop pre.length else s

/-- The whitespace predicate of Go's `unicode.IsSpace` restricted to the
Latin-1 range (the range exercised by this program's inputs). -/
def goIsSpace (c : Char) : Bool :=
  c = ' ' || c = '\t' || c = '\n' || c.val = 11 || c.val = 12 || c = '\r' ||
  c.val = 0x85 || c.val = 0xA0

/-- `strings.TrimSpace`. -/
def trimSpaceL (s : Str) : Str :=
  ((s.dropWhile goIsSpace).reverse.dropWhile goIsSpace).reverse

/-- `strings.Split s (String.singleton sep)`: split on every occurrence of a
one-character separator; `Split "" sep = [""]` as in Go. -/
def splitChar (sep : Char) : Str → List Str
  | [] => [[]]
  | c :: cs =>
    let r := splitChar sep cs
    if c = sep then [] :: r
    else
      match r with
      | h :: t => (c :: h) :: t
      | [] => [[c]]

/-- `strings.SplitN s sep 2` for a one-character separator: `some (a, b)`
when `sep` occurs (`a` before the first occurrence, `b` after), `none` when
it does not (Go returns the one-element slice `[s]` in that case). -/
def splitN2Char (sep : Char) : Str → Option (Str × Str)
  | [] => none
  | c :: cs =>
    if c = sep then some ([], cs)
    else (splitN2Char sep cs).map (fun p => (c :: p.1, p.2))

/-- `strings.Join parts sep`. -/
def joinStr (sep : Str) : List Str → Str
  | [] => []
  | [x] => x
  | x :: xs => x ++ sep ++ joinStr sep xs

/-- `bufio.Scanner` line splitting (`bufio.ScanLines`): split on newline,
emit no token for a trailing newline, and drop one trailing `\r` per line. -/
def dropCR (s : Str) : Str := if endsWithL s (str "\r") then s.dropLast else s

/-- All lines a `bufio.Scanner` produces from the given text. -/
def goLines (s : Str) : List Str :=
  let parts := splitChar '\n' s
  let parts := if parts.getLast? = some ([] : Str) then parts.dropLast else parts
  parts.map dropCR

/-- `path/filepath.Clean` on Unix. -/
def pathClean (p : Str) : Str :=
  if p = [] then str "."
  else
    let rooted := startsWithL p (str "/")
    let comps := (splitChar '/' p).filter (fun c => decide (c ≠ [] ∧ c ≠ str "."))
    let out := (comps.foldl (fun acc c =>
      if c = str ".." then
        if rooted then
          match acc with
          | [] => []
          | _ :: t => t
        else
          match acc with
          | [] => [str ".."]
          | h :: _ => if h = str ".." then c :: acc else acc.tail
      else c :: acc) []).reverse
    let s := joinStr (str "/") out
    if rooted then str "/" ++ s
    else if s = [] then str "." else s

/-- `path/filepath.Base` on Unix. -/
def filepathBase (p : Str) : Str :=
  if p = [] then str "."
  else
    let cs := p.reverse.dropWhile (fun c => c = '/')
    if cs = [] then str "/"
    else (cs.takeWhile (fun c => c ≠ '/')).reverse

/-- `path/filepath.Dir` on Unix. -/
def filepathDir (p : Str) : Str :=
  pathClean (p.reverse.dropWhile (fun c => c ≠ '/')).reverse

/-- `path/filepath.Join` for two elements. -/
def filepathJoin (a b : Str) : Str :=
  if a = [] ∧ b = [] then []
  else if a = [] then pathClean b
  else if b = [] then pathClean a
  else pathClean (a ++ str "/" ++ b)

/-! ## Domain data (internal/git, newest variant) -/

/-- `git.Worktree`. -/
structure Worktree where
  path : Str
  branch : Str
  head : Str
  isMain : Bool
deriving Repr, DecidableEq

/-- Go zero value of `git.Worktree`. -/
def emptyWorktree : Worktree := { path := [], branch := [], head := [], isMain := false }

/-- `git.Branch` (the detailed variant with upstream tracking). -/
structure Branch where
  name : Str
  isRemote : Bool
  remote : Str
  remoteRef : Str
  hasUpstream : Bool
  upstream : Str
  upstreamRemote : Str
deriving Repr, DecidableEq

/-- Go zero value of `git.Branch`. -/
def emptyBranch : Branch :=
  { name := [], isRemote := false, remote := [], remoteRef := [],
    hasUpstream := false, upstream := [], upstreamRemote := [] }

/-- Outcome of one external `git` subprocess invocation: exit status, captured
stdout, the Go error text (`exit status N`) and captured stderr.  A value of
type `List Str → GitOutcome` plays the role of the external tool. -/
structure GitOutcome where
  ok : Bool
  stdout : Str
  errText : Str
  stderr : Str

/-- The failure text `runGit` builds for a non-zero exit:
`fmt.Errorf("git %v failed: %v\n%s", args, err, stderr)`. -/
def gitFailMsg (args : List Str) (errText stderrText : Str) : Str :=
  str "git [" ++ joinStr (str " ") args ++ str "] failed: " ++ errText ++
  str "\n" ++ stderrText

/-- `runGit`: run the external tool once; a non-zero exit becomes a
descriptive error carrying the arguments and the captured stderr. -/
def runGitM (world : List Str → GitOutcome) (args : List Str) : Except Str Str :=
  let o := world args
  if o.ok then .ok o.stdout else .error (gitFailMsg args o.errText o.stderr)

/-- Argument vector of `git worktree list --porcelain`. -/
def wtListArgs : List Str := [str "worktree", str "list", str "--porcelain"]

/-- Argument vector of the local-branch query of `ListBranchesDetailed`. -/
def localRefArgs : List Str :=
  [str "for-each-ref", str "--sort=-committerdate",
   str "--format=%(refname:short)|%(upstream:short)", str "refs/heads"]

/-- Argument vector of the remote-branch query of `ListBranchesDetailed`. -/
def remoteRefArgs : List Str :=
  [str "for-each-ref", str "--sort=-committerdate",
   str "--format=%(refname:short)", str "refs/remotes"]

/-- The scanning loop of `ListWorktrees`: accumulate attribute lines into the
current block (`wt`, with `inBlock` tracking whether a `worktree ` line has
been seen), emit the block when the next `worktree ` line starts or at end of
stream, and ignore every unrecognized line. -/
def parseWT : List Str → Worktree → Bool → List Worktree
  | [], wt, inBlock => if inBlock then [wt] else []
  | line :: rest, wt, inBlock =>
    if startsWithL line (str "worktree ") then
      let nw : Worktree :=
        { path := trimSpaceL (trimPre line (str "worktree ")),
          branch := [], head := [], isMain := true }
      if inBlock then wt :: parseWT rest nw true else parseWT rest nw true
    else if startsWithL line (str "branch ") then
      parseWT rest { wt with branch := trimSpaceL (trimPre line (str "branch ")) } inBlock
    else if startsWithL line (str "HEAD ") then
      parseWT rest { wt with head := trimSpaceL (trimPre line (str "HEAD ")) } inBlock
    else parseWT rest wt inBlock

/-- The normalization pass at the end of `ListWorktrees`: the first entry is
main, every other entry is not. -/
def setMainFlags : List Worktree → List Worktree
  | [] => []
  | w :: rest => { w with isMain := true } :: rest.map (fun x => { x with isMain := false })

/-- `ListWorktrees`' transformation of the porcelain output text. -/
def parseWorktreesOut (out : Str) : List Worktree :=
  setMainFlags (parseWT (goLines out) emptyWorktree false)

/-- `ListWorktrees`, with the external tool passed in; the second component
logs every subprocess invocation (exactly one, never retried). -/
def listWorktreesRun (world : List Str → GitOutcome) :
    Except Str (List Worktree) × List (List Str) :=
  ((match runGitM world wtListArgs with
    | .error e => .error e
    | .ok out => .ok (parseWorktreesOut out)), [wtListArgs])

/-- One line of the local-branch query: short name, optionally `|`-separated
from the upstream short name. Empty (after trimming) lines are skipped. -/
def parseLocal (l : Str) : Option Branch :=
  let l := trimSpaceL l
  if l = [] then none
  else
    let p :=
      match splitN2Char '|' l with
      | some q => (trimSpaceL q.1, trimSpaceL q.2)
      | none => (l, ([] : Str))
    let name := p.1
    let up := p.2
    some { name := name, isRemote := false, remote := [], remoteRef := [],
           hasUpstream := decide (up ≠ []), upstream := up,
           upstreamRemote :=
             if up = [] then []
             else match splitN2Char '/' up with
                  | some q => q.1
                  | none => up }

/-- The local-branch loop of `ListBranchesDetailed`: parsed branches in line
order, together with the `seen` set of short names (as a list). -/
def addLocals : List Str → List Branch × List Str
  | [] => ([], [])
  | l :: rest =>
    let r := addLocals rest
    match parseLocal l with
    | none => r
    | some b => (b :: r.1, b.name :: r.2)

/-- The record the remote-branch loop builds:
`Branch{Name: name, IsRemote: true, Remote: remote, RemoteRef: l}`. -/
def remoteBranch (remote name ref : Str) : Branch :=
  { name := name, isRemote := true, remote := remote, remoteRef := ref,
    hasUpstream := false, upstream := [], upstreamRemote := [] }

/-- The remote-branch loop of `ListBranchesDetailed`: skip blank lines,
`<remote>/HEAD` pointers, lines without a `/`, and short names already seen
(local precedence); record each accepted name in `seen`. -/
def addRemotes (seen : List Str) : List Str → List Branch
  | [] => []
  | l :: rest =>
    let t := trimSpaceL l
    if t = [] then addRemotes seen rest
    else if endsWithL t (str "/HEAD") then addRemotes seen rest
    else
      match splitN2Char '/' t with
      | none => addRemotes seen rest
      | some q =>
        if q.2 ∈ seen then addRemotes seen rest
        else remoteBranch q.1 q.2 t :: addRemotes (q.2 :: seen) rest

/-- The local half of `ListBranchesDetailed` applied to the query output. -/
def branchesFromLocal (out : Str) : List Branch × List Str :=
  addLocals (splitChar '\n' (trimSpaceL out))

/-- The merged listing `ListBranchesDetailed` builds when both queries
succeed with the given outputs. -/
def branchesFromOutputs (outLocal outRemote : Str) : List Branch :=
  (branchesFromLocal outLocal).1 ++
    addRemotes (branchesFromLocal outLocal).2 (splitChar '\n' (trimSpaceL outRemote))

/-- `ListBranchesDetailed`, with the external tool passed in.  Each of the
two queries that fails is silently skipped (`if err == nil` in the source);
the function always returns a success value.  The second component logs the
subprocess invocations (exactly two, never retried). -/
def listBranchesDetailedRun (world : List Str → GitOutcome) :
    Except Str (List Branch) × List (List Str) :=
  let lp :=
    match runGitM world localRefArgs with
    | .ok out => branchesFromLocal out
    | .error _ => (([] : List Branch), ([] : List Str))
  let bs2 :=
    match runGitM world remoteRefArgs with
    | .ok out => lp.1 ++ addRemotes lp.2 (splitChar '\n' (trimSpaceL out))
    | .error _ => lp.1
  (.ok bs2, [localRefArgs, remoteRefArgs])

/-- `DefaultWorktreeDir` (newest variant): sibling of the working directory
named `<repoDirName>-<branch>`; falls back to `.worktrees/<branch>` when the
working directory cannot be read. -/
def defaultWorktreeDir (cwd : Option Str) (branch : Str) : Str :=
  match cwd with
  | none => filepathJoin (str ".worktrees") branch
  | some c => filepathJoin (filepathDir c) (filepathBase c ++ str "-" ++ branch)

/-! ## Interaction state machine (internal/tui/model.go, newest variant) -/

/-- A list entry (`tui.item`): display title/description, the worktree or
branch it denotes, and the synthetic-entry marker. -/
structure Item where
  title : Str
  desc : Str
  wt : Worktree
  isAdd : Bool
  br : Branch
deriving Repr, DecidableEq

/-- Go zero value of `tui.item`. -/
def emptyItem : Item :=
  { title := [], desc := [], wt := emptyWorktree, isAdd := false, br := emptyBranch }

/-- The part of a `bubbles list.Model` the state machine reads and writes:
its items and the cursor index. -/
structure ListModel where
  items : List Item
  index : Nat
deriving Repr, DecidableEq

/-- `list.Model.SelectedItem()` (filtering is disabled): the item under the
cursor, or none when the index is out of range. -/
def selectedItem (l : ListModel) : Option Item := l.items.get? l.index

/-- `tui.state`. -/
inductive TuiState
  | list
  | addPick
  | addNewInput
  | confirmDelete
deriving Repr, DecidableEq

/-- `tui.model`: the fields the transition logic touches.  `editing` is the
branch delegate's inline-editing flag; `confirmIndex = -1` means no inline
delete confirmation is pending. -/
structure Model where
  state : TuiState
  list : ListModel
  branches : ListModel
  inputValue : Str
  selected : Worktree
  editing : Bool
  confirmIndex : Int
  confirmPrev : Item
deriving Repr, DecidableEq

/-- `initialModel()`: empty lists, empty input, no pending confirmation. -/
def initialModel : Model :=
  { state := .list, list := { items := [], index := 0 },
    branches := { items := [], index := 0 }, inputValue := [],
    selected := emptyWorktree, editing := false,
    confirmIndex := -1, confirmPrev := emptyItem }

/-- A git mutation the state machine requests from the git layer. -/
inductive GitCall
  | createWorktree (branch targetDir : Str) (createBranch : Bool)
  | createWorktreeFromRef (branch targetDir fromRef : Str)
  | removeWorktree (path : Str) (force : Bool)
deriving Repr, DecidableEq

/-- Commands/side effects a transition emits (the `tea.Cmd` values). -/
inductive Eff
  | quit
  | loadWorktrees
  | loadBranches
  | statusMsg (s : Str)
  | execEditor (editor path : Str)
  | forwardList
  | forwardBranches
  | forwardInput
deriving Repr, DecidableEq

/-- Messages the update loop consumes. -/
inductive Msg
  | key (k : Str)
  | loadedWorktrees (res : Except Str (List Worktree))
  | loadedBranches (res : Except Str (List Branch))
  | editorDone
  | windowSize

/-- The external collaborators an update step interacts with: the git layer
(executed synchronously inside `Update`), the working directory, the editor
environment variables, the widget update functions and the styling
functions. -/
structure Env where
  git : GitCall → Except Str Unit
  cwd : Option Str
  visualVar : Str
  editorVar : Str
  listUpd : ListModel → Str → ListModel
  branchesUpd : ListModel → Str → ListModel
  inputUpd : Str → Str → Str
  styleSky : Str → Str
  styleGreen : Str → Str
  styleBlue : Str → Str
  styleMuted : Str → Str

/-- Restoring a pending inline delete confirmation: put the saved snapshot
back at `confirmIndex` (when the index is still in range) and clear the
pending state.  This is the restore block `Update` repeats in its `esc`,
failed-delete and second-`d` paths. -/
def restoreConfirm (m : Model) : Model :=
  if m.confirmIndex ≠ -1 then
    let items :=
      if 0 ≤ m.confirmIndex ∧ m.confirmIndex < (m.list.items.length : Int) then
        m.list.items.set m.confirmIndex.toNat m.confirmPrev
      else m.list.items
    { m with list := { m.list with items := items }, confirmIndex := -1 }
  else m

/-- `model.updateAddItemTitle(val)`: mirror the text buffer into the
synthetic branch-list entry's title at index 0; when the trimmed value is
empty and editing is not active, substitute the default label. -/
def setAddTitle (m : Model) (val : Str) : Model :=
  match m.branches.items with
  | [] => m
  | it0 :: rest =>
    if it0.isAdd = false then m
    else
      let title :=
        if trimSpaceL val = [] ∧ m.editing = false then str "[+] Create new branch" else val
      { m with branches := { m.branches with items := { it0 with title := title } :: rest } }

/-- `model.resetAddItemTitle()`. -/
def resetTitle (m : Model) : Model := setAddTitle m []

/-- The in-place confirmation overlay the `d` handler writes over the
selected entry. -/
def confirmItem (it : Item) : Item :=
  { it with
    title := str "Are you sure you want to delete: " ++ it.title,
    desc := str "Yes: Enter    No: Esc" }

/-- The strip of `refs/heads/` / `heads/` / `refs/` display prefixes in the
`loadedWorktreesMsg` handler. -/
def stripHeads (b : Str) : Str :=
  if startsWithL b (str "refs/heads/") then trimPre b (str "refs/heads/")
  else if startsWithL b (str "heads/") then trimPre b (str "heads/")
  else if startsWithL b (str "refs/") then trimPre b (str "refs/")
  else b

/-- The synthetic "add new worktree" entry. -/
def worktreeAddItem : Item :=
  { title := str "[+] Add new worktree", desc := str "Create from existing or new branch",
    wt := emptyWorktree, isAdd := true, br := emptyBranch }

/-- The list entry built for one worktree in the `loadedWorktreesMsg`
handler: folder name as title, labeled branch/path segments as description. -/
def worktreeItem (env : Env) (wt : Worktree) : Item :=
  let branch := stripHeads (if wt.branch = [] then wt.head else wt.branch)
  let segs :=
    (if branch ≠ [] then [env.styleSky (str "Branch:") ++ str " " ++ branch] else []) ++
    [env.styleGreen (str "Path:") ++ str " " ++ wt.path]
  { title := filepathBase wt.path, desc := joinStr (str "  ") segs,
    wt := wt, isAdd := false, br := emptyBranch }

/-- The synthetic "create new branch" entry. -/
def branchAddItem : Item :=
  { title := str "[+] Create new branch", desc := str "Type a new branch name",
    wt := emptyWorktree, isAdd := true, br := emptyBranch }

/-- The list entry built for one branch in the `loadedBranchesMsg` handler:
tracking info for locals, nothing for remotes. -/
def branchItem (env : Env) (b : Branch) : Item :=
  let desc :=
    if b.isRemote = false then
      let up := trimSpaceL b.upstream
      if up = [] then env.styleMuted (str "No remote")
      else env.styleBlue (str "Tracking:") ++ str " " ++ up
    else []
  { title := b.name, desc := desc, wt := emptyWorktree, isAdd := false, br := b }

/-- The `stateList` arm of the key switch. -/
def updateKeyList (env : Env) (m : Model) (k : Str) : Model × List GitCall × List Eff :=
  if k = str "q" then (m, [], [.quit])
  else if k = str "esc" then
    if m.confirmIndex ≠ -1 then (restoreConfirm m, [], []) else (m, [], [])
  else if k = str "r" then ({ m with confirmIndex := -1 }, [], [.loadWorktrees])
  else if k = str "a" then ({ m with state := .addPick }, [], [.loadBranches])
  else if k = str "enter" then
    if m.confirmIndex ≠ -1 ∧ (m.list.index : Int) = m.confirmIndex then
      if m.selected.path ≠ [] then
        match env.git (.removeWorktree m.selected.path true) with
        | .error e =>
          (restoreConfirm m, [.removeWorktree m.selected.path true],
           [.statusMsg (str "Error: " ++ e)])
        | .ok _ =>
          ({ m with confirmIndex := -1 }, [.removeWorktree m.selected.path true],
           [.loadWorktrees,
            .statusMsg (str "Removed worktree " ++ filepathBase m.selected.path)])
      else (m, [], [])
    else
      match selectedItem m.list with
      | none => (m, [], [])
      | some it =>
        if it.isAdd then ({ m with state := .addPick }, [], [.loadBranches])
        else if it.wt.path ≠ [] then
          let ed := if env.visualVar ≠ [] then env.visualVar else env.editorVar
          if ed = [] then (m, [], [.statusMsg (str "No editor: $EDITOR not set")])
          else (m, [], [.execEditor ed it.wt.path])
        else (m, [], [])
  else if k = str "d" then
    match selectedItem m.list with
    | none => (m, [], [])
    | some it =>
      if it.isAdd then (m, [], [])
      else if it.wt.isMain then (m, [], [.statusMsg (str "Cannot delete main worktree")])
      else
        let m1 := restoreConfirm m
        let idx := m1.list.index
        ({ m1 with
           selected := it.wt, confirmIndex := (idx : Int), confirmPrev := it,
           list := { m1.list with items := m1.list.items.set idx (confirmItem it) } },
         [], [])
  else ({ m with list := env.listUpd m.list k }, [], [.forwardList])

/-- The `stateAddPick` arm of the key switch, inline editing active. -/
def updateKeyEditing (env : Env) (m : Model) (k : Str) : Model × List GitCall × List Eff :=
  if k = str "esc" then (resetTitle { m with editing := false }, [], [])
  else if k = str "enter" then
    let branch := trimSpaceL m.inputValue
    if branch = [] then (m, [], [])
    else
      let path := defaultWorktreeDir env.cwd branch
      match env.git (.createWorktree branch path true) with
      | .error e =>
        (m, [.createWorktree branch path true], [.statusMsg (str "Error: " ++ e)])
      | .ok _ =>
        ({ resetTitle { m with editing := false } with state := .list },
         [.createWorktree branch path true],
         [.loadWorktrees, .statusMsg (str "Created worktree " ++ filepathBase path)])
  else
    let v := env.inputUpd m.inputValue k
    (setAddTitle { m with inputValue := v } v, [], [.forwardInput])

/-- The `stateAddPick` arm of the key switch, not editing. -/
def updateKeyPick (env : Env) (m : Model) (k : Str) : Model × List GitCall × List Eff :=
  if k = str "esc" then ({ m with state := .list }, [], [])
  else if k = str "n" then
    (setAddTitle { m with
       editing := true, inputValue := [],
       branches := { m.branches with index := 0 } } [], [], [])
  else if k = str "enter" then
    match selectedItem m.branches with
    | none => (m, [], [])
    | some it =>
      if it.isAdd then
        (setAddTitle { m with editing := true, inputValue := [] } [], [], [])
      else
        let branchName := it.br.name
        let path := defaultWorktreeDir env.cwd branchName
        match env.git (.createWorktree branchName path false) with
        | .error e =>
          (m, [.createWorktree branchName path false], [.statusMsg (str "Error: " ++ e)])
        | .ok _ =>
          ({ m with state := .list }, [.createWorktree branchName path false],
           [.loadWorktrees, .statusMsg (str "Created worktree " ++ filepathBase path)])
  else ({ m with branches := env.branchesUpd m.branches k }, [], [.forwardBranches])

/-- The `stateAddNewInput` arm of the key switch (historical mode, never
entered by any transition of the newest variant). -/
def updateKeyNewInput (env : Env) (m : Model) (k : Str) : Model × List GitCall × List Eff :=
  if k = str "esc" then ({ m with state := .list }, [], [])
  else if k = str "enter" then
    let branch := trimSpaceL m.inputValue
    if branch = [] then (m, [], [])
    else
      let path := defaultWorktreeDir env.cwd branch
      match env.git (.createWorktree branch path true) with
      | .error e =>
        ({ m with state := .list }, [.createWorktree branch path true],
         [.statusMsg (str "Error: " ++ e)])
      | .ok _ =>
        ({ m with state := .list }, [.createWorktree branch path true],
         [.loadWorktrees, .statusMsg (str "Created worktree " ++ filepathBase path)])
  else ({ m with inputValue := env.inputUpd m.inputValue k }, [], [.forwardInput])

/-- The `stateConfirmDelete` arm of the key switch (historical mode, never
entered by any transition of the newest variant). -/
def updateKeyConfirm (env : Env) (m : Model) (k : Str) : Model × List GitCall × List Eff :=
  if k = str "esc" then ({ m with state := .list }, [], [])
  else if k = str "enter" then
    match env.git (.removeWorktree m.selected.path true) with
    | .error e =>
      ({ m with state := .list }, [.removeWorktree m.selected.path true],
       [.statusMsg (str "Error: " ++ e)])
    | .ok _ =>
      ({ m with state := .list }, [.removeWorktree m.selected.path true],
       [.loadWorktrees, .statusMsg (str "Removed worktree " ++ filepathBase m.selected.path)])
  else (m, [], [])

/-- The `tea.KeyMsg` branch of `model.Update`: `ctrl+c` always quits, the
rest dispatches on the current mode. -/
def updateKey (env : Env) (m : Model) (k : Str) : Model × List GitCall × List Eff :=
  if k = str "ctrl+c" then (m, [], [.quit])
  else if m.state = .list then updateKeyList env m k
  else if m.state = .addPick then
    if m.editing then updateKeyEditing env m k else updateKeyPick env m k
  else if m.state = .addNewInput then updateKeyNewInput env m k
  else updateKeyConfirm env m k

/-- `model.Update`: one step of the interaction state machine, dispatching
on the message kind as the Go type switch does. -/
def update (env : Env) (m : Model) : Msg → Model × List GitCall × List Eff
  | .windowSize => (m, [], [])
  | .editorDone => (m, [], [.quit])
  | .loadedWorktrees res =>
    match res with
    | .error e => (m, [], [.statusMsg (str "Error: " ++ e)])
    | .ok wts =>
      ({ m with
         list := { m.list with items := worktreeAddItem :: wts.map (worktreeItem env) },
         confirmIndex := -1 }, [], [])
  | .loadedBranches res =>
    match res with
    | .error e => (m, [], [.statusMsg (str "Error: " ++ e)])
    | .ok brs =>
      ({ m with branches := { m.branches with items := branchAddItem :: brs.map (branchItem env) } },
       [], [])
  | .key k => updateKey env m k

/-- The states the interaction loop can reach from startup, under arbitrary
environments and message sequences. -/
inductive Reachable : Model → Prop
  | init : Reachable initialModel
  | step (env : Env) (msg : Msg) {m : Model} :
      Reachable m → Reachable (update env m msg).1

/-! ## Concrete instances used by witnesses and counterexamples -/

/-- An environment with identity widget/styling collaborators, a fixed
working directory and a git layer that always succeeds. -/
def idEnv : Env :=
  { git := fun _ => .ok (), cwd := some (str "/home/u/repo"),
    visualVar := [], editorVar := [],
    listUpd := fun l _ => l, branchesUpd := fun l _ => l, inputUpd := fun v _ => v,
    styleSky := id, styleGreen := id, styleBlue := id, styleMuted := id }

/-- `idEnv` whose list widget moves the cursor to a fixed index on any
forwarded key. -/
def cursorEnv (i : Nat) : Env := { idEnv with listUpd := fun l _ => { l with index := i } }

/-- A sample primary worktree. -/
def mainWT : Worktree :=
  { path := str "/r", branch := str "refs/heads/main", head := str "abc", isMain := true }

/-- A sample secondary worktree. -/
def secWT : Worktree :=
  { path := str "/r-b1", branch := str "refs/heads/b1", head := str "def", isMain := false }

/-- Sample porcelain output with two attribute blocks. -/
def c3Out : Str := str "worktree /a\nHEAD abc\nbranch refs/heads/x\nworktree /b\n"

/-- A sample external tool for which the remote query reports a `/HEAD`
pointer among its refs. -/
def c5World : List Str → GitOutcome := fun args =>
  if args = remoteRefArgs then
    { ok := true, stdout := str "origin/HEAD\norigin/rel", errText := [], stderr := [] }
  else { ok := true, stdout := str "main", errText := [], stderr := [] }

/-- An external tool whose local-branch query fails and whose remote-branch
query succeeds with one ref. -/
def c2World : List Str → GitOutcome := fun args =>
  if args = localRefArgs then
    { ok := false, stdout := [], errText := str "exit status 128",
      stderr := str "fatal: boom" }
  else { ok := true, stdout := str "origin/alpha", errText := [], stderr := [] }

/-- An external tool for which every invocation exits non-zero. -/
def c2FailWorld : List Str → GitOutcome := fun _ =>
  { ok := false, stdout := [], errText := str "exit status 1",
    stderr := str "fatal: not a git repository" }

/-- A remote-tracking branch entry as the branch picker shows it. -/
def c1Branch : Branch :=
  { name := str "feature", isRemote := true, remote := str "origin",
    remoteRef := str "origin/feature", hasUpstream := false, upstream := [],
    upstreamRemote := [] }

/-- The picker entry for `c1Branch`. -/
def c1Item : Item :=
  { title := str "feature", desc := [], wt := emptyWorktree, isAdd := false,
    br := c1Branch }

/-- The branch picker showing `c1Item` selected (not editing). -/
def c1Model : Model :=
  { initialModel with
    state := .addPick,
    branches := { items := [branchAddItem, c1Item], index := 1 } }

/-- The inline new-branch editor with ` feature-x ` typed into the buffer. -/
def c6Model : Model :=
  { initialModel with
    state := .addPick, editing := true, inputValue := str " feature-x " }

/-- The inline new-branch editor with only whitespace in the buffer. -/
def c6EmptyModel : Model :=
  { initialModel with
    state := .addPick, editing := true, inputValue := str "   " }

/-- Environment whose list widget moves the cursor to the primary entry. -/
def c7Env : Env := cursorEnv 1

/-- The listing after startup loads a primary and a secondary worktree. -/
def c7M1 : Model := (update c7Env initialModel (.loadedWorktrees (.ok [mainWT, secWT]))).1

/-- `c7M1` after a forwarded key moved the cursor onto the primary entry. -/
def c7M2 : Model := (update c7Env c7M1 (.key (str "x"))).1

/-- A list entry for the secondary worktree. -/
def secItem : Item :=
  { title := str "r-b1", desc := [], wt := secWT, isAdd := false, br := emptyBranch }

/-- A listing with the secondary entry selected and no pending
confirmation. -/
def c8Model : Model :=
  { initialModel with
    list := { items := [worktreeAddItem, secItem], index := 1 } }

/-- A non-primary worktree entry `A`. -/
def c9ItemA : Item :=
  { title := str "A", desc := [], isAdd := false, br := emptyBranch,
    wt := { path := str "/r-a", branch := [], head := [], isMain := false } }

/-- A non-primary worktree entry `B`. -/
def c9ItemB : Item :=
  { title := str "B", desc := [], isAdd := false, br := emptyBranch,
    wt := { path := str "/r-b", branch := [], head := [], isMain := false } }

/-- A listing with a confirmation pending on entry 1 (its overlay shown,
snapshot saved) while the cursor sits on entry 2. -/
def c9Model : Model :=
  { initialModel with
    list := { items := [worktreeAddItem, confirmItem c9ItemA, c9ItemB], index := 2 },
    confirmIndex := 1, confirmPrev := c9ItemA }

/-- The branch picker, not editing. -/
def c10PickModel : Model :=
  { initialModel with
    state := .addPick,
    branches := { items := [branchAddItem, c1Item], index := 1 } }

/-- The branch picker with the inline editor active. -/
def c10EditModel : Model :=
  { initialModel with
    state := .addPick, editing := true, inputValue := str "wip",
    branches := { items := [branchAddItem, c1Item], index := 0 } }

/-! ## List helpers -/

theorem get?_set_self {α : Type _} :
    ∀ (l : List α) (i : Nat) (a : α), i < l.length → (l.set i a).get? i = some a := by
  intro l
  induction l with
  | nil => intro i a h; simp at h
  | cons x l ih =>
    intro i a h
    cases i with
    | zero => rfl
    | succ j => exact ih j a (Nat.lt_of_succ_lt_succ h)

theorem get?_set_other {α : Type _} :
    ∀ (l : List α) (i j : Nat) (a : α), i ≠ j → (l.set i a).get? j = l.get? j := by
  intro l
  induction l with
  | nil => intro i j a _; simp
  | cons x l ih =>
    intro i j a hij
    cases i with
    | zero =>
      cases j with
      | zero => exact absurd rfl hij
      | succ j' => rfl
    | succ i' =>
      cases j with
      | zero => rfl
      | succ j' => exact ih i' j' a (fun h => hij (by rw [h]))

theorem set_get?_self {α : Type _} :
    ∀ (l : List α) (i : Nat) (a : α), l.get? i = some a → l.set i a = l := by
  intro l
  induction l with
  | nil => intro i a h; simp at h
  | cons x l ih =>
    intro i a h
    cases i with
    | zero =>
      have hx : x = a := by injection h
      show a :: l = x :: l
      rw [← hx]
    | succ j => exact congrArg (List.cons x) (ih j a h)

theorem get?_some_lt {α : Type _} :
    ∀ (l : List α) (i : Nat) (a : α), l.get? i = some a → i < l.length := by
  intro l i a h
  by_contra hge
  rw [List.get?_eq_none.mpr (Nat.le_of_not_lt hge)] at h
  exact Option.noConfusion h

/-! ## C3: worktree-list parsing -/

theorem parseWT_length (ls : List Str) :
    ∀ (wt : Worktree) (b : Bool),
      (parseWT ls wt b).length
        = ls.countP (fun l => startsWithL l (str "worktree ")) + (if b then 1 else 0) := by
  induction ls with
  | nil =>
    intro wt b
    cases b <;> simp [parseWT]
  | cons l rest ih =>
    intro wt b
    by_cases h1 : startsWithL l (str "worktree ")
    · cases b <;> simp [parseWT, h1, List.countP_cons, ih]
    · by_cases h2 : startsWithL l (str "branch ")
      · simp [parseWT, h1, h2, List.countP_cons, ih]
      · by_cases h3 : startsWithL l (str "HEAD ")
        · simp [parseWT, h1, h2, h3, List.countP_cons, ih]
        · simp [parseWT, h1, h2, h3, List.countP_cons, ih]

theorem setMainFlags_length (l : List Worktree) : (setMainFlags l).length = l.length := by
  cases l <;> simp [setMainFlags]

theorem setMainFlags_spec (l : List Worktree) (h : l ≠ []) :
    ∃ w rest, setMainFlags l = w :: rest ∧ w.isMain = true ∧
      ∀ x ∈ rest, x.isMain = false := by
  cases l with
  | nil => exact absurd rfl h
  | cons w rest =>
    exact ⟨{ w with isMain := true },
      rest.map (fun x : Worktree => ({ x with isMain := false } : Worktree)),
      rfl, rfl, fun x hx => by rcases List.mem_map.mp hx with ⟨y, _, rfl⟩; rfl⟩

theorem parseWT_skip (junk : Str)
    (h1 : startsWithL junk (str "worktree ") = false)
    (h2 : startsWithL junk (str "branch ") = false)
    (h3 : startsWithL junk (str "HEAD ") = false) :
    ∀ (pre post : List Str) (wt : Worktree) (b : Bool),
      parseWT (pre ++ junk :: post) wt b = parseWT (pre ++ post) wt b := by
  intro pre
  induction pre with
  | nil => intro post wt b; simp [parseWT, h1, h2, h3]
  | cons l rest ih =>
    intro post wt b
    simp only [List.cons_append, parseWT]
    by_cases g1 : startsWithL l (str "worktree ")
    · simp [g1, ih]
    · by_cases g2 : startsWithL l (str "branch ")
      · simp [g1, g2, ih]
      · by_cases g3 : startsWithL l (str "HEAD ")
        · simp [g1, g2, g3, ih]
        · simp [g1, g2, g3, ih]

/-- C3: for a porcelain text whose scanner lines contain `N` block-opening
`worktree ` attribute lines, `ListWorktrees` parses exactly `N` records, the
first marked main and every other one not, regardless of the blocks' other
content; inserting an unrecognized attribute line anywhere leaves the parse
unchanged; and a successful subprocess run surfaces exactly this parse. -/
theorem c3_listWorktrees_blocks (out : Str) (N : Nat)
    (hN : (goLines out).countP (fun l => startsWithL l (str "worktree ")) = N)
    (hpos : 0 < N) :
    (parseWorktreesOut out).length = N ∧
    (∃ w rest, parseWorktreesOut out = w :: rest ∧ w.isMain = true ∧
       ∀ x ∈ rest, x.isMain = false) ∧
    (∀ (pre post : List Str) (junk : Str),
       startsWithL junk (str "worktree ") = false →
       startsWithL junk (str "branch ") = false →
       startsWithL junk (str "HEAD ") = false →
       setMainFlags (parseWT (pre ++ junk :: post) emptyWorktree false)
         = setMainFlags (parseWT (pre ++ post) emptyWorktree false)) ∧
    (∀ world : List Str → GitOutcome,
       (world wtListArgs).ok = true → (world wtListArgs).stdout = out →
       listWorktreesRun world = (.ok (parseWorktreesOut out), [wtListArgs])) := by
  have hlen : (parseWT (goLines out) emptyWorktree false).length = N := by
    rw [parseWT_length]
    simp [hN]
  refine ⟨?_, ?_, ?_, ?_⟩
  · rw [parseWorktreesOut, setMainFlags_length, hlen]
  · apply setMainFlags_spec
    intro hnil
    rw [hnil] at hlen
    simp at hlen
    omega
  · intro pre post junk h1 h2 h3
    rw [parseWT_skip junk h1 h2 h3]
  · intro world hok hout
    simp [listWorktreesRun, runGitM, hok, hout]

theorem c3_witness : (parseWorktreesOut c3Out).length = 2 :=
  (c3_listWorktrees_blocks c3Out 2 (by decide) (by decide)).1

/-! ## C4/C5: branch-listing merge -/

theorem parseLocal_fields :
    ∀ (l : Str) (b : Branch), parseLocal l = some b →
      b.isRemote = false ∧ b.remoteRef = [] := by
  intro l b h
  unfold parseLocal at h
  by_cases hl : trimSpaceL l = []
  · simp [hl] at h
  · simp only [hl, if_neg, ite_false] at h
    injection h with h
    exact ⟨by rw [← h], by rw [← h]⟩

theorem addLocals_props (ls : List Str) :
    (∀ e ∈ (addLocals ls).1, e.isRemote = false ∧ e.remoteRef = []) ∧
    (addLocals ls).2 = (addLocals ls).1.map (fun b => b.name) := by
  induction ls with
  | nil => simp [addLocals]
  | cons l rest ih =>
    rcases hp : parseLocal l with _ | b
    · simpa [addLocals, hp] using ih
    · constructor
      · intro e he
        simp only [addLocals, hp, List.mem_cons] at he
        rcases he with rfl | he
        · exact parseLocal_fields l e hp
        · exact ih.1 e he
      · simp [addLocals, hp, ih.2]

theorem addRemotes_props :
    ∀ (ls : List Str) (seen : List Str) (e : Branch), e ∈ addRemotes seen ls →
      e.name ∉ seen ∧ e.isRemote = true ∧
      endsWithL e.remoteRef (str "/HEAD") = false := by
  intro ls
  induction ls with
  | nil => intro seen e he; simp [addRemotes] at he
  | cons l rest ih =>
    intro seen e he
    by_cases h1 : trimSpaceL l = []
    · exact ih seen e (by simpa [addRemotes, h1] using he)
    · by_cases h2 : endsWithL (trimSpaceL l) (str "/HEAD")
      · exact ih seen e (by simpa [addRemotes, h1, h2] using he)
      · rcases hq : splitN2Char '/' (trimSpaceL l) with _ | q
        · exact ih seen e (by simpa [addRemotes, h1, h2, hq] using he)
        · by_cases h3 : q.2 ∈ seen
          · exact ih seen e (by simpa [addRemotes, h1, h2, hq, h3] using he)
          · have he' : e = remoteBranch q.1 q.2 (trimSpaceL l) ∨
                e ∈ addRemotes (q.2 :: seen) rest := by
              simpa [addRemotes, h1, h2, hq, h3] using he
            rcases he' with rfl | he'
            · exact ⟨h3, rfl, by simpa using h2⟩
            · rcases ih (q.2 :: seen) e he' with ⟨hn, hr, hh⟩
              exact ⟨fun hc => hn (List.mem_cons_of_mem _ hc), hr, hh⟩

theorem filter_name_one :
    ∀ (l : List Branch) (n : Str),
      (l.map (fun b => b.name)).Nodup → n ∈ l.map (fun b => b.name) →
      (l.filter (fun e => decide (e.name = n))).length = 1 := by
  intro l
  induction l with
  | nil => intro n _ h; simp at h
  | cons b l ih =>
    intro n hnd hm
    simp only [List.map_cons, List.nodup_cons] at hnd
    rcases hnd with ⟨hb, hnd⟩
    simp only [List.map_cons, List.mem_cons] at hm
    by_cases hbn : b.name = n
    · subst hbn
      rw [List.filter_cons]
      have hnil : l.filter (fun e => decide (e.name = b.name)) = [] := by
        rw [List.filter_eq_nil_iff]
        intro a ha
        simp only [decide_eq_true_eq]
        intro hc
        exact hb (hc ▸ List.mem_map_of_mem (fun b => b.name) ha)
      simp [hnil]
    · rcases hm with h | h
      · exact absurd h.symm hbn
      · rw [List.filter_cons]
        simpa [hbn] using ih n hnd h

/-- C4: when a local branch and a remote branch share the same short name,
the merged listing of `ListBranchesDetailed` keeps exactly one entry for
that name — the local one — and every local entry precedes every remote
entry (the merged list is the locals followed by the surviving remotes). -/
theorem c4_local_precedence (outL outR : Str) (n : Str)
    (hnd : ((branchesFromLocal outL).1.map (fun b => b.name)).Nodup)
    (hmem : n ∈ (branchesFromLocal outL).1.map (fun b => b.name)) :
    ((branchesFromOutputs outL outR).filter (fun e => decide (e.name = n))).length = 1 ∧
    (∀ e ∈ branchesFromOutputs outL outR, e.name = n → e.isRemote = false) ∧
    (∃ rem, branchesFromOutputs outL outR = (branchesFromLocal outL).1 ++ rem ∧
       (∀ e ∈ (branchesFromLocal outL).1, e.isRemote = false) ∧
       ∀ e ∈ rem, e.isRemote = true) := by
  have hseen : (branchesFromLocal outL).2
      = (branchesFromLocal outL).1.map (fun b => b.name) :=
    (addLocals_props _).2
  have hremNoN : ∀ e ∈ addRemotes (branchesFromLocal outL).2
      (splitChar '\n' (trimSpaceL outR)), e.name ≠ n := by
    intro e he hc
    have := (addRemotes_props _ _ _ he).1
    rw [hseen] at this
    exact this (hc ▸ hmem)
  refine ⟨?_, ?_, ?_⟩
  · rw [branchesFromOutputs, List.filter_append]
    have hnil : (addRemotes (branchesFromLocal outL).2
        (splitChar '\n' (trimSpaceL outR))).filter (fun e => decide (e.name = n)) = [] := by
      rw [List.filter_eq_nil_iff]
      intro a ha
      simpa using hremNoN a ha
    rw [hnil, List.append_nil]
    exact filter_name_one _ n hnd hmem
  · intro e he hen
    rcases List.mem_append.mp he with h | h
    · exact ((addLocals_props _).1 e h).1
    · exact absurd hen (hremNoN e h)
  · exact ⟨_, rfl, fun e he => ((addLocals_props _).1 e he).1,
      fun e he => (addRemotes_props _ _ _ he).2.1⟩

theorem c4_witness :
    ((branchesFromOutputs (str "main\nfeat") (str "origin/main\norigin/rel")).filter
      (fun e => decide (e.name = str "main"))).length = 1 :=
  (c4_local_precedence (str "main\nfeat") (str "origin/main\norigin/rel") (str "main")
    (by decide) (by decide)).1

/-- C5: no entry of the merged branch listing carries a remote ref ending in
`/HEAD`, whatever the external tool returns. -/
theorem c5_no_head_entries (world : List Str → GitOutcome) (bs : List Branch)
    (h : (listBranchesDetailedRun world).1 = .ok bs) :
    ∀ e ∈ bs, endsWithL e.remoteRef (str "/HEAD") = false := by
  have hloc : ∀ (out : Str) (e : Branch), e ∈ (branchesFromLocal out).1 →
      endsWithL e.remoteRef (str "/HEAD") = false := by
    intro out e he
    rw [((addLocals_props _).1 e he).2]
    decide
  have hrem : ∀ (seen : List Str) (ls : List Str) (e : Branch), e ∈ addRemotes seen ls →
      endsWithL e.remoteRef (str "/HEAD") = false := by
    intro seen ls e he
    exact (addRemotes_props _ _ _ he).2.2
  intro e he
  rcases hL : runGitM world localRefArgs with eL | outL <;>
    rcases hR : runGitM world remoteRefArgs with eR | outR <;>
      simp only [listBranchesDetailedRun, hL, hR] at h <;>
        injection h with h <;> subst h
  · simp at he
  · exact hrem _ _ _ (by simpa using he)
  · exact hloc outL e he
  · rcases List.mem_append.mp he with h' | h'
    · exact hloc outL e h'
    · exact hrem _ _ _ h'

theorem c5_witness :
    endsWithL (remoteBranch (str "origin") (str "rel") (str "origin/rel")).remoteRef
      (str "/HEAD") = false :=
  c5_no_head_entries c5World _ rfl _ (by decide)

/-! ## C2: extractor failure surfacing -/

/-- C2 (amended): `ListWorktrees` surfaces a non-zero exit of its single git
invocation as the descriptive failure built by `runGit` (echoing the
arguments and the captured stderr) and invokes the tool exactly once
(no retry).  `ListBranchesDetailed` also runs each of its two queries
exactly once, but it never surfaces a subprocess failure: it always returns
a success value, and when the local query fails while the remote query
succeeds it returns only the remote-derived entries — a partially-populated
result alongside success. -/
theorem c2_failure_surfacing (world : List Str → GitOutcome) :
    ((world wtListArgs).ok = false →
       listWorktreesRun world
         = (.error (gitFailMsg wtListArgs (world wtListArgs).errText
              (world wtListArgs).stderr), [wtListArgs])) ∧
    (listWorktreesRun world).2 = [wtListArgs] ∧
    (∃ bs, listBranchesDetailedRun world = (.ok bs, [localRefArgs, remoteRefArgs])) ∧
    ((world localRefArgs).ok = false → (world remoteRefArgs).ok = true →
       (listBranchesDetailedRun world).1
         = .ok (addRemotes []
             (splitChar '\n' (trimSpaceL (world remoteRefArgs).stdout)))) := by
  refine ⟨?_, rfl, ?_, ?_⟩
  · intro hbad
    simp [listWorktreesRun, runGitM, hbad]
  · exact ⟨_, rfl⟩
  · intro hLbad hRok
    simp [listBranchesDetailedRun, runGitM, hLbad, hRok]

/-- C2 counterexample: a non-zero exit of the local-branch query does not
surface from `ListBranchesDetailed` — the call still returns success, with a
listing populated only from the remote query. -/
theorem c2_counterexample :
    (c2World localRefArgs).ok = false ∧
    listBranchesDetailedRun c2World
      = (.ok [remoteBranch (str "origin") (str "alpha") (str "origin/alpha")],
         [localRefArgs, remoteRefArgs]) := by
  constructor
  · rfl
  · rfl

theorem c2_witness :
    listWorktreesRun c2FailWorld
      = (.error (gitFailMsg wtListArgs (str "exit status 1")
           (str "fatal: not a git repository")), [wtListArgs]) :=
  (c2_failure_surfacing c2FailWorld).1 rfl

/-! ## Interaction state machine: shared facts -/

@[simp] theorem strEqIff (a b : String) : str a = str b ↔ a = b :=
  ⟨fun h => String.ext h, fun h => h ▸ rfl⟩

theorem restoreConfirm_of_none (m : Model) (h : m.confirmIndex = -1) :
    restoreConfirm m = m := by
  unfold restoreConfirm
  simp [h]

theorem restoreConfirm_selected (m : Model) : (restoreConfirm m).selected = m.selected := by
  unfold restoreConfirm
  split <;> rfl

theorem restoreConfirm_state (m : Model) : (restoreConfirm m).state = m.state := by
  unfold restoreConfirm
  split <;> rfl

theorem restoreConfirm_index (m : Model) : (restoreConfirm m).list.index = m.list.index := by
  unfold restoreConfirm
  split <;> rfl

theorem setAddTitle_selected (m : Model) (v : Str) :
    (setAddTitle m v).selected = m.selected := by
  unfold setAddTitle
  split
  · rfl
  · split <;> rfl

theorem setAddTitle_state (m : Model) (v : Str) :
    (setAddTitle m v).state = m.state := by
  unfold setAddTitle
  split
  · rfl
  · split <;> rfl

/-! ## C6: inline new-branch creation -/

/-- C6: with the inline editor active, `enter` on a buffer whose trimmed
value is non-empty invokes worktree creation with `createBranchFlag = true`,
the trimmed buffer as branch, and `DefaultWorktreeDir` of it as target;
`enter` on an all-whitespace buffer invokes nothing and leaves the whole
model unchanged; and `DefaultWorktreeDir(branch)` is the parent of the
working directory joined with `<repoDirName>-<branch>`. -/
theorem c6_editor_enter (env : Env) (m : Model)
    (hst : m.state = .addPick) (hed : m.editing = true) :
    (trimSpaceL m.inputValue ≠ [] →
       (update env m (.key (str "enter"))).2.1
         = [.createWorktree (trimSpaceL m.inputValue)
              (defaultWorktreeDir env.cwd (trimSpaceL m.inputValue)) true]) ∧
    (trimSpaceL m.inputValue = [] →
       update env m (.key (str "enter"))= (m, [], [])) ∧
    (∀ (cwd branch : Str),
       defaultWorktreeDir (some cwd) branch
         = filepathJoin (filepathDir cwd) (filepathBase cwd ++ str "-" ++ branch)) := by
  refine ⟨?_, ?_, fun _ _ => rfl⟩
  · intro hne
    simp only [update, updateKey, updateKeyList, updateKeyEditing, updateKeyPick, hst, hed]
    simp [hne]
    split <;> rfl
  · intro hemp
    simp [update, updateKey, updateKeyList, updateKeyEditing, updateKeyPick, hst, hed, hemp]

theorem c6_witness :
    (update idEnv c6Model (.key (str "enter"))).2.1
      = [.createWorktree (str "feature-x") (str "/home/u/repo-feature-x") true] :=
  (c6_editor_enter idEnv c6Model rfl rfl).1 (by decide)

/-! ## C1: branch-picker enter on a remote entry -/

/-- C1 (amended): with the branch picker active (not editing), `enter` on a
remote branch entry invokes `CreateWorktree` with the entry's short name,
target `DefaultWorktreeDir(shortName)` and `createBranchFlag = false` — the
full remote ref is not passed and `CreateWorktreeFromRef` is never invoked;
on success the machine returns to `Listing` with a refresh and a notice, on
failure it shows a notice and stays unchanged in `PickingBranch`. -/
theorem c1_remote_enter (env : Env) (m : Model) (it : Item)
    (hst : m.state = .addPick) (hed : m.editing = false)
    (hsel : selectedItem m.branches = some it) (hadd : it.isAdd = false)
    (_hrem : it.br.isRemote = true) :
    ((update env m (.key (str "enter"))).2.1
       = [.createWorktree it.br.name (defaultWorktreeDir env.cwd it.br.name) false]) ∧
    (∀ b t r, GitCall.createWorktreeFromRef b t r
       ∉ (update env m (.key (str "enter"))).2.1) ∧
    (env.git (.createWorktree it.br.name (defaultWorktreeDir env.cwd it.br.name) false)
        = .ok () →
      update env m (.key (str "enter")) = ({ m with state := .list },
        [.createWorktree it.br.name (defaultWorktreeDir env.cwd it.br.name) false],
        [.loadWorktrees, .statusMsg (str "Created worktree "
           ++ filepathBase (defaultWorktreeDir env.cwd it.br.name))])) ∧
    (∀ e, env.git (.createWorktree it.br.name (defaultWorktreeDir env.cwd it.br.name) false)
        = .error e →
      update env m (.key (str "enter")) = (m,
        [.createWorktree it.br.name (defaultWorktreeDir env.cwd it.br.name) false],
        [.statusMsg (str "Error: " ++ e)])) := by
  refine ⟨?_, ?_, ?_, ?_⟩
  · simp only [update, updateKey, updateKeyList, updateKeyEditing, updateKeyPick, hst, hed, hsel]
    simp [hadd]
    split <;> rfl
  · intro b t r
    simp only [update, updateKey, updateKeyList, updateKeyEditing, updateKeyPick, hst, hed, hsel]
    simp [hadd]
    split <;> simp
  · intro hok
    simp [update, updateKey, updateKeyList, updateKeyEditing, updateKeyPick, hst, hed, hsel, hadd, hok]
  · intro e herr
    simp [update, updateKey, updateKeyList, updateKeyEditing, updateKeyPick, hst, hed, hsel, hadd, herr]

/-- C1 counterexample: on a concrete picker state with the remote entry
`origin/feature` selected, `enter` invokes `CreateWorktree` with the short
name — `CreateWorktreeFromRef` with the full remote ref is not invoked. -/
theorem c1_counterexample :
    (update idEnv c1Model (.key (str "enter"))).2.1
      = [GitCall.createWorktree (str "feature") (str "/home/u/repo-feature") false] ∧
    GitCall.createWorktreeFromRef (str "feature") (str "/home/u/repo-feature")
      (str "origin/feature") ∉ (update idEnv c1Model (.key (str "enter"))).2.1 := by
  constructor
  · rfl
  · decide

theorem c1_witness :
    (update idEnv c1Model (.key (str "enter"))).2.1
      = [.createWorktree (str "feature") (str "/home/u/repo-feature") false] :=
  (c1_remote_enter idEnv c1Model c1Item rfl rfl rfl rfl rfl).1

/-! ## C10: the `q` key -/

/-- C10: in `Listing` the `q` key terminates exactly like `ctrl+c`; in the
branch picker (editing or not) `q` does not terminate and is forwarded to
the active widget as ordinary input. -/
theorem c10_q_key (env : Env) (m : Model) :
    (m.state = .list →
       update env m (.key (str "q")) = (m, [], [.quit]) ∧
       update env m (.key (str "q")) = update env m (.key (str "ctrl+c"))) ∧
    (m.state = .addPick →
       Eff.quit ∉ (update env m (.key (str "q"))).2.2 ∧
       (m.editing = false →
          update env m (.key (str "q"))
            = ({ m with branches := env.branchesUpd m.branches (str "q") },
               [], [.forwardBranches])) ∧
       (m.editing = true →
          update env m (.key (str "q"))
            = (setAddTitle { m with inputValue := env.inputUpd m.inputValue (str "q") }
                 (env.inputUpd m.inputValue (str "q")), [], [.forwardInput]))) := by
  constructor
  · intro hst
    constructor <;> simp [update, updateKey, updateKeyList, updateKeyEditing, updateKeyPick, hst]
  · intro hst
    refine ⟨?_, ?_, ?_⟩
    · cases hed : m.editing <;> simp [update, updateKey, updateKeyList, updateKeyEditing, updateKeyPick, hst, hed]
    · intro hed
      simp [update, updateKey, updateKeyList, updateKeyEditing, updateKeyPick, hst, hed]
    · intro hed
      simp [update, updateKey, updateKeyList, updateKeyEditing, updateKeyPick, hst, hed]

/-! ## C7: the primary worktree is never removed -/

theorem updateKeyEditing_inv (env : Env) (m : Model) (k : Str) :
    (updateKeyEditing env m k).1.selected = m.selected ∧
    ∀ p f, GitCall.removeWorktree p f ∉ (updateKeyEditing env m k).2.1 := by
  by_cases h1 : k = str "esc"
  · simp [updateKeyEditing, h1, resetTitle, setAddTitle_selected]
  · by_cases h2 : k = str "enter"
    · by_cases h3 : trimSpaceL m.inputValue = []
      · simp [updateKeyEditing, h1, h2, h3]
      · rcases hg : env.git (.createWorktree (trimSpaceL m.inputValue)
            (defaultWorktreeDir env.cwd (trimSpaceL m.inputValue)) true) with e | u
        · simp [updateKeyEditing, h1, h2, h3, hg]
        · simp [updateKeyEditing, h1, h2, h3, hg, resetTitle, setAddTitle_selected]
    · simp [updateKeyEditing, h1, h2, setAddTitle_selected]

theorem updateKeyPick_inv (env : Env) (m : Model) (k : Str) :
    (updateKeyPick env m k).1.selected = m.selected ∧
    ∀ p f, GitCall.removeWorktree p f ∉ (updateKeyPick env m k).2.1 := by
  by_cases h1 : k = str "esc"
  · simp [updateKeyPick, h1]
  · by_cases h2 : k = str "n"
    · simp [updateKeyPick, h1, h2, setAddTitle_selected]
    · by_cases h3 : k = str "enter"
      · rcases hsel : selectedItem m.branches with _ | it
        · simp [updateKeyPick, h1, h2, h3, hsel]
        · by_cases h4 : it.isAdd = true
          · simp [updateKeyPick, h1, h2, h3, hsel, h4, setAddTitle_selected]
          · rcases hg : env.git (.createWorktree it.br.name
                (defaultWorktreeDir env.cwd it.br.name) false) with e | u
            · simp [updateKeyPick, h1, h2, h3, hsel, h4, hg]
            · simp [updateKeyPick, h1, h2, h3, hsel, h4, hg]
      · simp [updateKeyPick, h1, h2, h3]

theorem updateKeyNewInput_inv (env : Env) (m : Model) (k : Str) :
    (updateKeyNewInput env m k).1.selected = m.selected ∧
    ∀ p f, GitCall.removeWorktree p f ∉ (updateKeyNewInput env m k).2.1 := by
  by_cases h1 : k = str "esc"
  · simp [updateKeyNewInput, h1]
  · by_cases h2 : k = str "enter"
    · by_cases h3 : trimSpaceL m.inputValue = []
      · simp [updateKeyNewInput, h1, h2, h3]
      · rcases hg : env.git (.createWorktree (trimSpaceL m.inputValue)
            (defaultWorktreeDir env.cwd (trimSpaceL m.inputValue)) true) with e | u
        · simp [updateKeyNewInput, h1, h2, h3, hg]
        · simp [updateKeyNewInput, h1, h2, h3, hg]
    · simp [updateKeyNewInput, h1, h2]

theorem updateKeyConfirm_inv (env : Env) (m : Model) (k : Str) :
    (updateKeyConfirm env m k).1.selected = m.selected ∧
    ∀ p f, GitCall.removeWorktree p f ∈ (updateKeyConfirm env m k).2.1 →
      p = m.selected.path := by
  by_cases h1 : k = str "esc"
  · simp [updateKeyConfirm, h1]
  · by_cases h2 : k = str "enter"
    · rcases hg : env.git (.removeWorktree m.selected.path true) with e | u
      · constructor
        · simp [updateKeyConfirm, h1, h2, hg]
        · intro p f hp
          simp [updateKeyConfirm, h1, h2, hg] at hp
          exact hp.1
      · constructor
        · simp [updateKeyConfirm, h1, h2, hg]
        · intro p f hp
          simp [updateKeyConfirm, h1, h2, hg] at hp
          exact hp.1
    · simp [updateKeyConfirm, h1, h2]

theorem updateKeyList_inv (env : Env) (m : Model) (k : Str) :
    ((updateKeyList env m k).1.selected = m.selected ∨
       (updateKeyList env m k).1.selected.isMain = false) ∧
    ∀ p f, GitCall.removeWorktree p f ∈ (updateKeyList env m k).2.1 →
      p = m.selected.path := by
  by_cases h1 : k = str "q"
  · simp [updateKeyList, h1]
  · by_cases h2 : k = str "esc"
    · by_cases hc : m.confirmIndex ≠ -1
      · simp [updateKeyList, h1, h2, hc, restoreConfirm_selected]
      · simp [updateKeyList, h1, h2, hc]
    · by_cases h3 : k = str "r"
      · simp [updateKeyList, h1, h2, h3]
      · by_cases h4 : k = str "a"
        · simp [updateKeyList, h1, h2, h3, h4]
        · by_cases h5 : k = str "enter"
          · by_cases hc : m.confirmIndex ≠ -1 ∧ (m.list.index : Int) = m.confirmIndex
            · by_cases hp0 : m.selected.path ≠ []
              · rcases hg : env.git (.removeWorktree m.selected.path true) with e | u
                · constructor
                  · simp [updateKeyList, h1, h2, h3, h4, h5, hc, hp0, hg,
                      restoreConfirm_selected]
                  · intro p f hp
                    simp [updateKeyList, h1, h2, h3, h4, h5, hc, hp0, hg] at hp
                    exact hp.1
                · constructor
                  · simp [updateKeyList, h1, h2, h3, h4, h5, hc, hp0, hg]
                  · intro p f hp
                    simp [updateKeyList, h1, h2, h3, h4, h5, hc, hp0, hg] at hp
                    exact hp.1
              · simp [updateKeyList, h1, h2, h3, h4, h5, hc, hp0]
            · rcases hsel : selectedItem m.list with _ | it
              · simp [updateKeyList, h1, h2, h3, h4, h5, hc, hsel]
              · by_cases hadd : it.isAdd = true
                · simp [updateKeyList, h1, h2, h3, h4, h5, hc, hsel, hadd]
                · by_cases hwp : it.wt.path ≠ []
                  · by_cases hv : env.visualVar = []
                    · by_cases hv2 : env.editorVar = []
                      · simp [updateKeyList, h1, h2, h3, h4, h5, hc, hsel, hadd, hwp,
                          hv, hv2]
                      · simp [updateKeyList, h1, h2, h3, h4, h5, hc, hsel, hadd, hwp,
                          hv, hv2]
                    · simp [updateKeyList, h1, h2, h3, h4, h5, hc, hsel, hadd, hwp, hv]
                  · simp [updateKeyList, h1, h2, h3, h4, h5, hc, hsel, hadd, hwp]
          · by_cases h6 : k = str "d"
            · rcases hsel : selectedItem m.list with _ | it
              · simp [updateKeyList, h1, h2, h3, h4, h5, h6, hsel]
              · by_cases hadd : it.isAdd = true
                · simp [updateKeyList, h1, h2, h3, h4, h5, h6, hsel, hadd]
                · by_cases hmain : it.wt.isMain = true
                  · simp [updateKeyList, h1, h2, h3, h4, h5, h6, hsel, hadd, hmain]
                  · simp [updateKeyList, h1, h2, h3, h4, h5, h6, hsel, hadd, hmain]
            · simp [updateKeyList, h1, h2, h3, h4, h5, h6]

theorem update_selected_notMain (env : Env) (m : Model) (msg : Msg)
    (h : m.selected.isMain = false) : (update env m msg).1.selected.isMain = false := by
  cases msg with
  | windowSize => exact h
  | editorDone => exact h
  | loadedWorktrees res => cases res <;> exact h
  | loadedBranches res => cases res <;> exact h
  | key k =>
    show (updateKey env m k).1.selected.isMain = false
    unfold updateKey
    by_cases h1 : k = str "ctrl+c"
    · simp [h1, h]
    · by_cases h2 : m.state = TuiState.list
      · rcases (updateKeyList_inv env m k).1 with hs | hs
        · simp [h1, h2, hs, h]
        · simp [h1, h2, hs]
      · by_cases h3 : m.state = TuiState.addPick
        · by_cases h4 : m.editing = true
          · simp [h1, h2, h3, h4, (updateKeyEditing_inv env m k).1, h]
          · simp [h1, h2, h3, h4, (updateKeyPick_inv env m k).1, h]
        · by_cases h5 : m.state = TuiState.addNewInput
          · simp [h1, h2, h3, h5, (updateKeyNewInput_inv env m k).1, h]
          · simp [h1, h2, h3, h5, (updateKeyConfirm_inv env m k).1, h]

theorem update_remove_target (env : Env) (m : Model) (msg : Msg) (p : Str) (f : Bool)
    (hmem : GitCall.removeWorktree p f ∈ (update env m msg).2.1) :
    p = m.selected.path := by
  cases msg with
  | windowSize => simp [update] at hmem
  | editorDone => simp [update] at hmem
  | loadedWorktrees res => cases res <;> simp [update] at hmem
  | loadedBranches res => cases res <;> simp [update] at hmem
  | key k =>
    have hmem' : GitCall.removeWorktree p f ∈ (updateKey env m k).2.1 := hmem
    unfold updateKey at hmem'
    by_cases h1 : k = str "ctrl+c"
    · simp [h1] at hmem'
    · by_cases h2 : m.state = TuiState.list
      · rw [if_neg h1, if_pos h2] at hmem'
        exact (updateKeyList_inv env m k).2 p f hmem'
      · by_cases h3 : m.state = TuiState.addPick
        · by_cases h4 : m.editing = true
          · rw [if_neg h1, if_neg h2, if_pos h3, if_pos h4] at hmem'
            exact absurd hmem' ((updateKeyEditing_inv env m k).2 p f)
          · rw [if_neg h1, if_neg h2, if_pos h3, if_neg h4] at hmem'
            exact absurd hmem' ((updateKeyPick_inv env m k).2 p f)
        · by_cases h5 : m.state = TuiState.addNewInput
          · rw [if_neg h1, if_neg h2, if_neg h3, if_pos h5] at hmem'
            exact absurd hmem' ((updateKeyNewInput_inv env m k).2 p f)
          · rw [if_neg h1, if_neg h2, if_neg h3, if_neg h5] at hmem'
            exact (updateKeyConfirm_inv env m k).2 p f hmem'

theorem reachable_selected_notMain (m : Model) (h : Reachable m) :
    m.selected.isMain = false := by
  induction h with
  | init => rfl
  | step env msg hr ih => exact update_selected_notMain env _ msg ih

/-- C7: in any reachable state, pressing `d` in `Listing` with the primary
entry under the cursor emits only the non-fatal notice, does not invoke the
removal operation and leaves the model (hence the `Listing` mode) unchanged;
moreover every `RemoveWorktree` invocation any step of the machine performs
targets the saved selection, which in a reachable state is never the primary
worktree. -/
theorem c7_primary_protected (m : Model) (hr : Reachable m) (it : Item) (env : Env)
    (hst : m.state = .list) (hsel : selectedItem m.list = some it)
    (hadd : it.isAdd = false) (hmain : it.wt.isMain = true) :
    update env m (.key (str "d"))
      = (m, [], [.statusMsg (str "Cannot delete main worktree")]) ∧
    ∀ (env' : Env) (msg : Msg) (p : Str) (f : Bool),
      GitCall.removeWorktree p f ∈ (update env' m msg).2.1 →
      p = m.selected.path ∧ m.selected.isMain = false := by
  constructor
  · simp [update, updateKey, updateKeyList, updateKeyEditing, updateKeyPick, hst, hsel, hadd, hmain]
  · intro env' msg p f hmem
    exact ⟨update_remove_target env' m msg p f hmem, reachable_selected_notMain m hr⟩

theorem c7_witness :
    update c7Env c7M2 (.key (str "d"))
      = (c7M2, [], [.statusMsg (str "Cannot delete main worktree")]) :=
  (c7_primary_protected c7M2
    (Reachable.step c7Env (.key (str "x"))
      (Reachable.step c7Env (.loadedWorktrees (.ok [mainWT, secWT])) Reachable.init))
    (worktreeItem c7Env mainWT) c7Env rfl rfl rfl rfl).1

/-! ## C8: confirm-then-cancel round trip -/

/-- C8: from a listing with no pending confirmation, pressing `d` on a
non-primary, non-synthetic entry and then `esc` restores the list — items
(titles and descriptions) byte-for-byte, cursor, and mode — to its
pre-confirmation state, with no confirmation left pending. -/
theorem c8_confirm_cancel_roundtrip (env env2 : Env) (m : Model) (it : Item)
    (hst : m.state = .list) (hci : m.confirmIndex = -1)
    (hsel : selectedItem m.list = some it)
    (hadd : it.isAdd = false) (hmain : it.wt.isMain = false) :
    (update env2 (update env m (.key (str "d"))).1 (.key (str "esc"))).1.list = m.list ∧
    (update env2 (update env m (.key (str "d"))).1 (.key (str "esc"))).1.confirmIndex = -1 ∧
    (update env2 (update env m (.key (str "d"))).1 (.key (str "esc"))).1.state = .list := by
  have hres : restoreConfirm m = m := restoreConfirm_of_none m hci
  have hlt : m.list.index < m.list.items.length := get?_some_lt _ _ _ hsel
  have hidx : ((m.list.index : Int) ≠ -1) := by omega
  have hd : (update env m (.key (str "d"))).1
      = { m with
          selected := it.wt, confirmIndex := (m.list.index : Int), confirmPrev := it,
          list := { m.list with
                    items := m.list.items.set m.list.index (confirmItem it) } } := by
    show (updateKey env m (str "d")).1 = _
    simp [updateKey, updateKeyList, hst, hsel, hadd, hmain, hres]
  rw [hd]
  have he : update env2
      { m with
        selected := it.wt, confirmIndex := (m.list.index : Int), confirmPrev := it,
        list := { m.list with
                  items := m.list.items.set m.list.index (confirmItem it) } }
      (.key (str "esc"))
      = ({ m with
           selected := it.wt, confirmIndex := -1, confirmPrev := it,
           list := { m.list with
                     items := (m.list.items.set m.list.index (confirmItem it)).set
                       m.list.index it } }, [], []) := by
    show (updateKey env2 _ (str "esc")) = _
    simp only [updateKey, updateKeyList, restoreConfirm]
    simp [hst, hidx, List.length_set, hlt]
  rw [he]
  refine ⟨?_, rfl, hst⟩
  show ({ m.list with
          items := (m.list.items.set m.list.index (confirmItem it)).set
            m.list.index it } : ListModel) = m.list
  rw [List.set_set, set_get?_self m.list.items m.list.index it hsel]

theorem c8_witness :
    (update idEnv (update idEnv c8Model (.key (str "d"))).1 (.key (str "esc"))).1.list
      = c8Model.list :=
  (c8_confirm_cancel_roundtrip idEnv idEnv c8Model secItem rfl rfl rfl rfl rfl).1

/-! ## C9: single pending confirmation, restore-before-overlay, refresh clears -/

/-- C9: pressing `d` on a second entry while a confirmation is pending on
entry `j` first restores `j`'s snapshot and only then overlays the new
confirmation on the cursor entry (so at most one confirmation is ever
shown, and the model's single `confirmIndex`/`confirmPrev` pair now tracks
the new entry); an explicit `r` refresh clears any pending confirmation,
and so does a successful listing-loaded event in any mode. -/
theorem c9_single_confirmation (env : Env) (m : Model) (it : Item) (j : Nat)
    (hst : m.state = .list) (hci : m.confirmIndex = (j : Int))
    (hj : j < m.list.items.length) (hne : m.list.index ≠ j)
    (hsel : selectedItem m.list = some it)
    (hadd : it.isAdd = false) (hmain : it.wt.isMain = false) :
    ((update env m (.key (str "d"))).1.list.items.get? j = some m.confirmPrev ∧
     (update env m (.key (str "d"))).1.list.items.get? m.list.index
       = some (confirmItem it) ∧
     (update env m (.key (str "d"))).1.confirmIndex = (m.list.index : Int) ∧
     (update env m (.key (str "d"))).1.confirmPrev = it) ∧
    (∀ m' : Model, m'.state = .list →
       update env m' (.key (str "r"))
         = ({ m' with confirmIndex := -1 }, [], [.loadWorktrees])) ∧
    (∀ (m' : Model) (wts : List Worktree),
       (update env m' (.loadedWorktrees (.ok wts))).1.confirmIndex = -1) := by
  have hlt : m.list.index < m.list.items.length := get?_some_lt _ _ _ hsel
  have hjne : ((j : Int) ≠ -1) := by omega
  have hrc : restoreConfirm m
      = { m with
          list := { m.list with items := m.list.items.set j m.confirmPrev },
          confirmIndex := -1 } := by
    simp only [restoreConfirm]
    simp [hci, hjne, hj]
  have hd : (update env m (.key (str "d"))).1
      = { m with
          selected := it.wt, confirmIndex := (m.list.index : Int), confirmPrev := it,
          list := { m.list with
                    items := (m.list.items.set j m.confirmPrev).set m.list.index
                      (confirmItem it) } } := by
    show (updateKey env m (str "d")).1 = _
    simp [updateKey, updateKeyList, hst, hsel, hadd, hmain, hrc]
  refine ⟨⟨?_, ?_, ?_, ?_⟩, ?_, ?_⟩
  · rw [hd]
    show ((m.list.items.set j m.confirmPrev).set m.list.index (confirmItem it)).get? j
      = some m.confirmPrev
    rw [get?_set_other _ _ _ _ hne, get?_set_self _ _ _ hj]
  · rw [hd]
    show ((m.list.items.set j m.confirmPrev).set m.list.index (confirmItem it)).get?
        m.list.index = some (confirmItem it)
    exact get?_set_self _ _ _ (by rw [List.length_set]; exact hlt)
  · rw [hd]
  · rw [hd]
  · intro m' hst'
    simp [update, updateKey, updateKeyList, hst']
  · intro m' wts
    rfl

theorem c9_witness :
    (update idEnv c9Model (.key (str "d"))).1.list.items.get? 1 = some c9ItemA :=
  (c9_single_confirmation idEnv c9Model c9ItemB 1 rfl rfl (by decide) (by decide)
    rfl rfl rfl).1.1

theorem c10_witness :
    update idEnv initialModel (.key (str "q")) = (initialModel, [], [.quit]) ∧
    update idEnv c10PickModel (.key (str "q"))
      = ({ c10PickModel with branches := c10PickModel.branches }, [], [.forwardBranches]) ∧
    Eff.quit ∉ (update idEnv c10EditModel (.key (str "q"))).2.2 :=
  ⟨((c10_q_key idEnv initialModel).1 rfl).1,
   ((c10_q_key idEnv c10PickModel).2 rfl).2.1 rfl,
   ((c10_q_key idEnv c10EditModel).2 rfl).1⟩

end WtTui
